import Mathlib

/-!
Shallow embedding of `qutip/distributions.py` (the distribution grid data
model and the three distribution builders), together with theorems about
the behaviour of `Distribution.marginal`, `Distribution.project` and the
builders' `update` operations.

Numeric conventions: NumPy double-precision arrays are embedded as exact
real / complex arithmetic.  An n-dimensional array of shape `s` is the
dependent type `NDArr s`; NumPy reductions `mean(axis=d)` / `max(axis=d)`
become `meanAxis` / `maxAxis`.  NumPy and Python accept negative axis /
list indices counted from the end (valid range `[-rank, rank)`), which is
captured by `normAxis`; an out-of-range axis raises (modelled with
`Except`).
-/

/-- An n-dimensional real array of shape `s` (embedding of a NumPy ndarray). -/
@[reducible] def NDArr : List ℕ → Type
  | [] => ℝ
  | n :: s => Fin n → NDArr s

/-- Elementwise addition of two arrays of the same shape. -/
noncomputable def ndAdd : (s : List ℕ) → NDArr s → NDArr s → NDArr s
  | [], x, y => x + y
  | _ :: s, f, g => fun k => ndAdd s (f k) (g k)

/-- Multiplication of every entry by a scalar. -/
noncomputable def ndSMul (c : ℝ) : (s : List ℕ) → NDArr s → NDArr s
  | [], x => c * x
  | _ :: s, f => fun k => ndSMul c s (f k)

/-- The constant array of shape `s` with every entry `c`. -/
def constArr : (s : List ℕ) → ℝ → NDArr s
  | [], c => c
  | _ :: s, c => fun _ => constArr s c

/-- Sum of a finite family of arrays of shape `s` (the reduction behind
NumPy `sum`/`mean` along the leading axis). -/
noncomputable def ndSum : (n : ℕ) → (s : List ℕ) → (Fin n → NDArr s) → NDArr s
  | 0, s, _ => constArr s 0
  | n + 1, s, f => ndAdd s (f 0) (ndSum n s (fun k => f k.succ))

/-- Elementwise maximum of two arrays of the same shape. -/
noncomputable def ndMax2 : (s : List ℕ) → NDArr s → NDArr s → NDArr s
  | [], x, y => max x y
  | _ :: s, f, g => fun k => ndMax2 s (f k) (g k)

/-- Maximum of a nonempty finite family of arrays of shape `s` (the
reduction behind NumPy `max` along the leading axis). -/
noncomputable def ndMaxFold : (n : ℕ) → (s : List ℕ) → (Fin (n + 1) → NDArr s) → NDArr s
  | 0, _, f => f 0
  | n + 1, s, f => ndMax2 s (f 0) (ndMaxFold n s (fun k => f k.succ))

/-- NumPy `a.mean(axis=d)`: arithmetic average along axis `d`.  For an
axis of size 0 NumPy produces NaN entries (no exception); here the junk
value is 0 (claims about `mean` only concern nonempty axes). -/
noncomputable def meanAxis : (d : ℕ) → (s : List ℕ) → NDArr s → NDArr (s.eraseIdx d)
  | _, [], x => x
  | 0, n :: s, f => ndSMul (1 / (n : ℝ)) s (ndSum n s f)
  | d + 1, _ :: s, f => fun k => meanAxis d s (f k)

/-- NumPy `a.max(axis=d)`: maximum along axis `d`.  NumPy raises a
`ValueError` on a zero-size axis; that case is guarded by the caller
(`Distribution.project`), so the value here for `n = 0` is junk. -/
noncomputable def maxAxis : (d : ℕ) → (s : List ℕ) → NDArr s → NDArr (s.eraseIdx d)
  | _, [], x => x
  | 0, 0 :: s, _ => constArr s 0
  | 0, (n + 1) :: s, f => ndMaxFold n s f
  | d + 1, _ :: s, f => fun k => maxAxis d s (f k)

/-- Entry of an array at a multi-index (0 when the index is invalid). -/
noncomputable def ndGet : (s : List ℕ) → NDArr s → List ℕ → ℝ
  | [], x, _ => x
  | _ :: _, _, [] => 0
  | n :: s, f, i :: idx => if h : i < n then ndGet s (f ⟨i, h⟩) idx else 0

/-- All entries of the array equal `c`. -/
def allEq : (s : List ℕ) → NDArr s → ℝ → Prop
  | [], x, c => x = c
  | _ :: s, f, c => ∀ k, allEq s (f k) c

/-- NumPy / Python index normalization: an axis (or list index) `d` is
valid for length `n` iff `-n ≤ d < n`; negative values count from the
end.  Returns the normalized nonnegative index, or `none` on the
`AxisError` / `IndexError` range. -/
def normAxis (n : ℕ) (d : Int) : Option ℕ :=
  if 0 ≤ d ∧ d < (n : Int) then some d.toNat
  else if -(n : Int) ≤ d ∧ d < 0 then some ((n : Int) + d).toNat
  else none

/-- Embedding of the class `Distribution` of `qutip/distributions.py`:
`data` (a NumPy array), `xvecs` (one coordinate list per axis) and
`xlabels` (one display string per axis). -/
structure Distribution where
  shape : List ℕ
  data : NDArr shape
  xvecs : List (List ℝ)
  xlabels : List String

/-- `Distribution.marginal(dim)`: returns
`Distribution(data=self.data.mean(axis=dim), xvecs=[self.xvecs[dim]], xlabels=[self.xlabels[dim]])`.
The three container accesses each normalize `dim` against their own
length; any out-of-range access raises (NumPy `AxisError` for `mean`,
Python `IndexError` for the lists), collapsed here to `Except.error`. -/
noncomputable def Distribution.marginal (g : Distribution) (dim : Int) : Except String Distribution :=
  match normAxis g.shape.length dim, normAxis g.xvecs.length dim, normAxis g.xlabels.length dim with
  | some d, some dv, some dl =>
      Except.ok { shape := g.shape.eraseIdx d
                  data := meanAxis d g.shape g.data
                  xvecs := [g.xvecs.getD dv []]
                  xlabels := [g.xlabels.getD dl ""] }
  | _, _, _ => Except.error "AxisError"

/-- `Distribution.project(dim)`: same as `marginal` but with
`self.data.max(axis=dim)`.  NumPy `max` additionally raises a
`ValueError` when the reduced axis has size 0. -/
noncomputable def Distribution.project (g : Distribution) (dim : Int) : Except String Distribution :=
  match normAxis g.shape.length dim, normAxis g.xvecs.length dim, normAxis g.xlabels.length dim with
  | some d, some dv, some dl =>
      if g.shape.getD d 0 = 0 then Except.error "ValueError: zero-size array reduction"
      else
        Except.ok { shape := g.shape.eraseIdx d
                    data := maxAxis d g.shape g.data
                    xvecs := [g.xvecs.getD dv []]
                    xlabels := [g.xlabels.getD dl ""] }
  | _, _, _ => Except.error "AxisError"

/-- `true` iff the call returned normally (no exception raised). -/
def exceptOk {ε α : Type} : Except ε α → Bool
  | Except.ok _ => true
  | Except.error _ => false

/-- A rank-2 grid with distinct axis vectors `[0]` and `[1]`, exhibiting
which axis vector `marginal` keeps. -/
noncomputable def c2grid : Distribution where
  shape := [1, 1]
  data := (show NDArr [1, 1] from fun _ _ => 0)
  xvecs := [[0], [1]]
  xlabels := ["a", "b"]

/-- A concrete rank-1 grid (data `[3, 5]`). -/
noncomputable def c4grid : Distribution where
  shape := [2]
  data := (show NDArr [2] from ![3, 5])
  xvecs := [[0, 1]]
  xlabels := ["x"]

/-- The hand-built 2 x 3 grid `[[1,5,2],[4,0,3]]` used by the spec's
concrete test of `project` and `marginal`. -/
noncomputable def c7grid : Distribution where
  shape := [2, 3]
  data := (show NDArr [2, 3] from ![![1, 5, 2], ![4, 0, 3]])
  xvecs := [[0, 1], [0, 1, 2]]
  xlabels := ["r", "c"]

/-- Physicists' Hermite polynomial `H_n` evaluated at `x`: the embedding
of `np.polyval(scipy.special.hermite(n), X)` through the standard
recurrence `H_0 = 1`, `H_1(x) = 2x`,
`H_(n+2)(x) = 2x H_(n+1)(x) - 2(n+1) H_n(x)`. -/
noncomputable def hermite : ℕ → ℝ → ℝ
  | 0, _ => 1
  | 1, x => 2 * x
  | n + 2, x => 2 * x * hermite (n + 1) x - 2 * (n + 1) * hermite n x

/-- Modelled from the spec: `qutip.states.state_number_index` is imported
by `distributions.py` but its code is not under `src/`; the spec fixes it
as the canonical row-major composite index over the dimension list, so
that `state_number_index([N, N], [n1, n2]) = n1*N + n2`. -/
def state_number_index (dims : List ℕ) (state : List ℕ) : ℕ :=
  (List.zip dims state).foldl (fun acc p => acc * p.1 + p.2) 0

/-- The quadrature eigenfunction kernel of
`TwoModeQuadratureCorrelation.update`:
`exp(-1j*theta*n) / sqrt(sqrt(pi) * 2**n * factorial(n)) * exp(-X**2/2) * polyval(hermite(n), X)`
at one mesh point `X = x`. -/
noncomputable def kn (theta : ℝ) (n : ℕ) (x : ℝ) : ℂ :=
  Complex.exp (-Complex.I * (theta : ℂ) * (n : ℂ)) /
    ((Real.sqrt (Real.sqrt Real.pi * 2 ^ n * Nat.factorial n) : ℝ) : ℂ) *
    ((Real.exp (-x ^ 2 / 2) : ℝ) : ℂ) * ((hermite n x : ℝ) : ℂ)

/-- `np.linspace(a, b, n)`: `n` evenly spaced samples from `a` to `b`
with step `(b - a)/(n - 1)`. -/
noncomputable def linspace (a b : ℝ) (n : ℕ) : List ℝ :=
  (List.range n).map (fun (i : ℕ) => a + (i : ℝ) * (b - a) / ((n : ℝ) - 1))

/-- The quantum-state collaborator object: `dims` is the per-mode
truncation metadata (`rho.dims[0][0]` is the first mode's Fock
truncation) and `amp i` is the flat complex amplitude column
`rho.data[i, 0]`. -/
structure Qobj where
  dims : List (List ℕ)
  amp : ℕ → ℂ

/-- Modelled from the spec: `qutip.wigner.wigner` is repository code not
under `src/`; the spec fixes only its interface — `wigner(state, x, y)`
returns a 2D real array of shape `steps x steps` — and not its values,
so it is modelled as the zero grid of that shape. -/
noncomputable def wigner (_rho : Qobj) (xv yv : List ℝ) : List (List ℝ) :=
  List.ofFn (fun _ : Fin xv.length => List.ofFn (fun _ : Fin yv.length => (0 : ℝ)))

/-- Modelled from the spec: `qutip.wigner.qfunc` (the Husimi-Q transform)
is repository code not under `src/`; like `wigner` the spec fixes only
its shape contract, so it is modelled as a constant grid of that shape. -/
noncomputable def qfunc (_rho : Qobj) (xv yv : List ℝ) : List (List ℝ) :=
  List.ofFn (fun _ : Fin xv.length => List.ofFn (fun _ : Fin yv.length => (1 : ℝ)))

/-- Embedding of class `WignerDistribution`: the two linspace axis
vectors, the axis labels, and the `data` attribute (absent until the
first `update`). -/
structure WignerDistribution where
  xvecs : List (List ℝ)
  xlabels : List String
  data : Option (List (List ℝ))

/-- `WignerDistribution.update(rho)`:
`self.data = wigner(rho, self.xvecs[0], self.xvecs[1])`. -/
noncomputable def WignerDistribution.update (b : WignerDistribution) (rho : Qobj) :
    WignerDistribution :=
  { b with data := some (wigner rho (b.xvecs.getD 0 []) (b.xvecs.getD 1 [])) }

/-- `WignerDistribution.__init__(rho, extent, steps)`: builds the two
linspace axis vectors and the labels; `update` runs only when `rho` is
truthy, so `data` stays unset for an absent state. -/
noncomputable def WignerDistribution.init (rho : Option Qobj)
    (e00 e01 e10 e11 : ℝ) (steps : ℕ) : WignerDistribution :=
  let b : WignerDistribution :=
    { xvecs := [linspace e00 e01 steps, linspace e10 e11 steps]
      xlabels := ["$\\rm\x7bRe\x7d(\\alpha)$", "$\\rm\x7bIm\x7d(\\alpha)$"]
      data := none }
  match rho with
  | none => b
  | some r => b.update r

/-- Embedding of class `QDistribution` (same layout as
`WignerDistribution`). -/
structure QDistribution where
  xvecs : List (List ℝ)
  xlabels : List String
  data : Option (List (List ℝ))

/-- `QDistribution.update(rho)`:
`self.data = qfunc(rho, self.xvecs[0], self.xvecs[1])`. -/
noncomputable def QDistribution.update (b : QDistribution) (rho : Qobj) :
    QDistribution :=
  { b with data := some (qfunc rho (b.xvecs.getD 0 []) (b.xvecs.getD 1 [])) }

/-- `QDistribution.__init__(rho, extent, steps)`. -/
noncomputable def QDistribution.init (rho : Option Qobj)
    (e00 e01 e10 e11 : ℝ) (steps : ℕ) : QDistribution :=
  let b : QDistribution :=
    { xvecs := [linspace e00 e01 steps, linspace e10 e11 steps]
      xlabels := ["$\\rm\x7bRe\x7d(\\alpha)$", "$\\rm\x7bIm\x7d(\\alpha)$"]
      data := none }
  match rho with
  | none => b
  | some r => b.update r

/-- Embedding of class `TwoModeQuadratureCorrelation`: axis vectors,
labels, the two immutable phase angles, and the `data` attribute (absent
until the first `update`). -/
structure TwoModeQuadratureCorrelation where
  xvecs : List (List ℝ)
  xlabels : List String
  theta1 : ℝ
  theta2 : ℝ
  data : Option (List (List ℝ))

/-- The complex accumulator of `TwoModeQuadratureCorrelation.update` at
one mesh point: the nested loops
`for n1 in range(N): for n2 in range(N): p += kn1 * kn2 * rho.data[i, 0]`
starting from the zero initialization of `p`. -/
noncomputable def pEntry (theta1 theta2 : ℝ) (N : ℕ) (amp : ℕ → ℂ) (x1 x2 : ℝ) : ℂ :=
  (List.range N).foldl
    (fun acc n1 =>
      (List.range N).foldl
        (fun acc2 n2 =>
          acc2 + kn theta1 n1 x1 * kn theta2 n2 x2 *
            amp (state_number_index [N, N] [n1, n2]))
        acc)
    0

/-- The same accumulation with the two loops interchanged (`n2` outer,
`n1` inner). -/
noncomputable def pEntrySwapped (theta1 theta2 : ℝ) (N : ℕ) (amp : ℕ → ℂ) (x1 x2 : ℝ) : ℂ :=
  (List.range N).foldl
    (fun acc n2 =>
      (List.range N).foldl
        (fun acc2 n1 =>
          acc2 + kn theta1 n1 x1 * kn theta2 n2 x2 *
            amp (state_number_index [N, N] [n1, n2]))
        acc)
    0

/-- The body of `TwoModeQuadratureCorrelation.update` on an actual state:
reads `N = rho.dims[0][0]`, evaluates the kernels over the
`np.meshgrid(self.xvecs[0], self.xvecs[1])` mesh — entry `(i, j)` of the
`len(xvecs[0]) x len(xvecs[1])` accumulator `p` sees
`X1 = xvecs[0][j]` and `X2 = xvecs[1][i]` — and stores
`self.data = abs(p)**2`. -/
noncomputable def TwoModeQuadratureCorrelation.updateCore
    (b : TwoModeQuadratureCorrelation) (rho : Qobj) : TwoModeQuadratureCorrelation :=
  { b with data := some (List.ofFn (fun i : Fin (b.xvecs.getD 0 []).length =>
      List.ofFn (fun j : Fin (b.xvecs.getD 1 []).length =>
        Complex.abs (pEntry b.theta1 b.theta2 ((rho.dims.getD 0 []).getD 0 0) rho.amp
          ((b.xvecs.getD 0 []).getD j 0) ((b.xvecs.getD 1 []).getD i 0)) ^ 2))) }

/-- `updateCore` with the summation order of the two Fock loops
interchanged. -/
noncomputable def TwoModeQuadratureCorrelation.updateCoreSwapped
    (b : TwoModeQuadratureCorrelation) (rho : Qobj) : TwoModeQuadratureCorrelation :=
  { b with data := some (List.ofFn (fun i : Fin (b.xvecs.getD 0 []).length =>
      List.ofFn (fun j : Fin (b.xvecs.getD 1 []).length =>
        Complex.abs (pEntrySwapped b.theta1 b.theta2 ((rho.dims.getD 0 []).getD 0 0) rho.amp
          ((b.xvecs.getD 0 []).getD j 0) ((b.xvecs.getD 1 []).getD i 0)) ^ 2))) }

/-- `TwoModeQuadratureCorrelation.update(rho)`: unguarded — with an
absent state the very first access `rho.dims` raises an
`AttributeError` (before `self.data` is touched); with a state present
it recomputes `data`. -/
noncomputable def TwoModeQuadratureCorrelation.update
    (b : TwoModeQuadratureCorrelation) (rho : Option Qobj) :
    Except String TwoModeQuadratureCorrelation :=
  match rho with
  | none => Except.error "AttributeError: NoneType object has no attribute dims"
  | some r => Except.ok (b.updateCore r)

/-- `TwoModeQuadratureCorrelation.__init__(rho, theta1, theta2, extent, steps)`. -/
noncomputable def TwoModeQuadratureCorrelation.init (rho : Option Qobj)
    (theta1 theta2 : ℝ) (e00 e01 e10 e11 : ℝ) (steps : ℕ) :
    TwoModeQuadratureCorrelation :=
  let b : TwoModeQuadratureCorrelation :=
    { xvecs := [linspace e00 e01 steps, linspace e10 e11 steps]
      xlabels := ["$X_1(\\theta_1)$", "$X_2(\\theta_2)$"]
      theta1 := theta1
      theta2 := theta2
      data := none }
  match rho with
  | none => b
  | some r => b.updateCore r

/-- The two-mode vacuum state: per-mode Fock truncation `N = 1`, single
amplitude entry `1` at joint index 0. -/
noncomputable def vacuumState : Qobj where
  dims := [[1, 1], [1, 1]]
  amp := fun i => if i = 0 then 1 else 0

/-- Entry `(i, j)` of a two-mode builder grid (0 if `data` is unset or
the index is out of range). -/
noncomputable def TwoModeQuadratureCorrelation.dataEntry
    (b : TwoModeQuadratureCorrelation) (i j : ℕ) : ℝ :=
  ((b.data.getD []).getD i []).getD j 0

/-- The two-mode builder over the axes `xv1`, `xv2` with angles `t1`,
`t2`, after one `update` with the vacuum state. -/
noncomputable def c6built (t1 t2 : ℝ) (xv1 xv2 : List ℝ) : TwoModeQuadratureCorrelation :=
  (TwoModeQuadratureCorrelation.mk [xv1, xv2] ["$X_1(\\theta_1)$", "$X_2(\\theta_2)$"]
    t1 t2 none).updateCore vacuumState

/-- C7: on the 2 x 3 grid `[[1,5,2],[4,0,3]]`, `project(0)` yields the
per-column maximum `[4, 5, 3]` over axis 0, and `marginal(0)` yields the
per-column arithmetic mean `[2.5, 2.5, 2.5]`. -/
theorem project_marginal_concrete_values :
    (∃ g, c7grid.project 0 = Except.ok g ∧ g.shape = [3] ∧
      ndGet g.shape g.data [0] = 4 ∧ ndGet g.shape g.data [1] = 5 ∧
      ndGet g.shape g.data [2] = 3) ∧
    (∃ g, c7grid.marginal 0 = Except.ok g ∧ g.shape = [3] ∧
      ndGet g.shape g.data [0] = 2.5 ∧ ndGet g.shape g.data [1] = 2.5 ∧
      ndGet g.shape g.data [2] = 2.5) := by
  constructor
  · refine ⟨⟨[3], maxAxis 0 [2, 3] c7grid.data, [[0, 1]], ["r"]⟩, ?_, rfl, ?_, ?_, ?_⟩
    · simp [Distribution.project, normAxis, c7grid]
    all_goals
      simp [c7grid, maxAxis, ndMaxFold, ndMax2, ndGet]
      try norm_num
  · refine ⟨⟨[3], meanAxis 0 [2, 3] c7grid.data, [[0, 1]], ["r"]⟩, ?_, rfl, ?_, ?_, ?_⟩
    · simp [Distribution.marginal, normAxis, c7grid]
    all_goals
      simp [c7grid, meanAxis, ndSMul, ndSum, ndAdd, constArr, ndGet]
      try norm_num

theorem normAxis_of_lt (n d : ℕ) (h : d < n) : normAxis n (d : Int) = some d := by
  have h1 : (0 : Int) ≤ (d : Int) := Int.natCast_nonneg d
  have h2 : (d : Int) < (n : Int) := by exact_mod_cast h
  simp [normAxis, h1, h2]

theorem normAxis_none_iff (n : ℕ) (d : Int) :
    normAxis n d = none ↔ d < -(n : Int) ∨ (n : Int) ≤ d := by
  unfold normAxis
  by_cases h1 : 0 ≤ d ∧ d < (n : Int)
  · rw [if_pos h1]; simp; omega
  · rw [if_neg h1]
    by_cases h2 : -(n : Int) ≤ d ∧ d < 0
    · rw [if_pos h2]; simp; omega
    · rw [if_neg h2]; simp; omega

theorem normAxis_some_lt (n : ℕ) (d : Int)
    (h : ¬(d < -(n : Int) ∨ (n : Int) ≤ d)) :
    ∃ k, normAxis n d = some k ∧ k < n := by
  unfold normAxis
  by_cases h1 : 0 ≤ d ∧ d < (n : Int)
  · rw [if_pos h1]; exact ⟨d.toNat, rfl, by omega⟩
  · have h2 : -(n : Int) ≤ d ∧ d < 0 := by omega
    rw [if_neg h1, if_pos h2]; exact ⟨((n : Int) + d).toNat, rfl, by omega⟩

/-- C2 counterexample: on a rank-2 grid with distinct axis vectors
`[[0], [1]]`, `marginal(0)` returns axis vectors `[[0]]` — the singleton
holding the REDUCED axis vector `xvecs[0]` — whereas the original list
with index 0 removed is `[[1]]`.  So `marginal` does not return the
original sequence with the reduced index removed. -/
theorem marginal_xvecs_not_removed_cex :
    (c2grid.marginal 0).map Distribution.xvecs = Except.ok [[(0 : ℝ)]] ∧
    c2grid.xvecs.eraseIdx 0 = [[(1 : ℝ)]] ∧
    (c2grid.marginal 0).map Distribution.xvecs ≠
      Except.ok (c2grid.xvecs.eraseIdx 0) := by
  have h0 : normAxis 2 (0 : Int) = some 0 := by decide
  have hm : (c2grid.marginal 0).map Distribution.xvecs = Except.ok [[(0 : ℝ)]] := by
    simp [Distribution.marginal, c2grid, h0, Except.map]
  refine ⟨hm, rfl, ?_⟩
  rw [hm]
  simp [c2grid]

/-- C2 (amended): for every well-formed grid of rank at least 1 and every
axis index `d` in `[0, rank)` (with nonzero size along `d`, so that
`project`'s NumPy `max` reduction is defined), `marginal(d)` and
`project(d)` succeed and return a grid whose data has rank `rank - 1`,
but whose `axisVectors`/`axisLabels` are the singleton lists holding
exactly the entries at index `d` (the reduced axis), not the original
sequences with index `d` removed. -/
theorem marginal_project_keep_reduced_axis
    (g : Distribution) (d : ℕ)
    (hv : g.xvecs.length = g.shape.length)
    (hl : g.xlabels.length = g.shape.length)
    (hd : d < g.shape.length)
    (hn : g.shape.getD d 0 ≠ 0) :
    (∃ g2, g.marginal (d : Int) = Except.ok g2 ∧
      g2.shape = g.shape.eraseIdx d ∧
      g2.shape.length = g.shape.length - 1 ∧
      g2.xvecs = [g.xvecs.getD d []] ∧
      g2.xlabels = [g.xlabels.getD d ""]) ∧
    (∃ g2, g.project (d : Int) = Except.ok g2 ∧
      g2.shape = g.shape.eraseIdx d ∧
      g2.shape.length = g.shape.length - 1 ∧
      g2.xvecs = [g.xvecs.getD d []] ∧
      g2.xlabels = [g.xlabels.getD d ""]) := by
  have e1 : normAxis g.shape.length (d : Int) = some d := normAxis_of_lt _ _ hd
  have e2 : normAxis g.xvecs.length (d : Int) = some d := by
    rw [hv]; exact normAxis_of_lt _ _ hd
  have e3 : normAxis g.xlabels.length (d : Int) = some d := by
    rw [hl]; exact normAxis_of_lt _ _ hd
  have hlen : (g.shape.eraseIdx d).length = g.shape.length - 1 := by
    rw [List.length_eraseIdx]; simp [hd]
  constructor
  · refine ⟨⟨g.shape.eraseIdx d, meanAxis d g.shape g.data,
      [g.xvecs.getD d []], [g.xlabels.getD d ""]⟩, ?_, rfl, hlen, rfl, rfl⟩
    simp only [Distribution.marginal, e1, e2, e3]
  · refine ⟨⟨g.shape.eraseIdx d, maxAxis d g.shape g.data,
      [g.xvecs.getD d []], [g.xlabels.getD d ""]⟩, ?_, rfl, hlen, rfl, rfl⟩
    simp only [Distribution.project, e1, e2, e3, if_neg hn]

/-- Witness for the amended C2 theorem at the concrete rank-1 grid
`c4grid` and axis 0. -/
theorem marginal_project_keep_reduced_axis_witness :
    (0 < c4grid.shape.length ∧ c4grid.shape.getD 0 0 ≠ 0) ∧
    ((∃ g2, c4grid.marginal (0 : Int) = Except.ok g2 ∧
      g2.shape = c4grid.shape.eraseIdx 0 ∧
      g2.shape.length = c4grid.shape.length - 1 ∧
      g2.xvecs = [c4grid.xvecs.getD 0 []] ∧
      g2.xlabels = [c4grid.xlabels.getD 0 ""]) ∧
    (∃ g2, c4grid.project (0 : Int) = Except.ok g2 ∧
      g2.shape = c4grid.shape.eraseIdx 0 ∧
      g2.shape.length = c4grid.shape.length - 1 ∧
      g2.xvecs = [c4grid.xvecs.getD 0 []] ∧
      g2.xlabels = [c4grid.xlabels.getD 0 ""])) :=
  ⟨⟨by decide, by decide⟩,
    marginal_project_keep_reduced_axis c4grid 0 rfl rfl (by decide) (by decide)⟩

/-- C4 counterexample: `marginal(-1)` on the concrete rank-1 grid
`c4grid` returns normally (NumPy and Python count a negative index from
the end), contradicting the claim that `marginal(-1)` fails with an
`InvalidAxis` error for every grid of rank at least 1. -/
theorem marginal_neg_one_succeeds_cex :
    exceptOk (c4grid.marginal (-1)) = true := by
  have h0 : normAxis 1 (-1 : Int) = some 0 := by decide
  simp only [Distribution.marginal, c4grid, h0]
  rfl

/-- C4 (amended): for every well-formed grid of rank at least 1 all of
whose axes are nonempty, `marginal(dim)` and `project(dim)` fail exactly
when `dim` is outside `[-rank, rank)` (NumPy/Python normalize a negative
index by adding `rank`); in particular `marginal(rank)` fails with the
axis-range error but `marginal(-1)` succeeds. -/
theorem marginal_project_error_iff_axis_range
    (g : Distribution) (dim : Int)
    (hv : g.xvecs.length = g.shape.length)
    (hl : g.xlabels.length = g.shape.length)
    (hr : 1 ≤ g.shape.length)
    (hz : ∀ k ∈ g.shape, k ≠ 0) :
    (exceptOk (g.marginal dim) = false ↔
      dim < -(g.shape.length : Int) ∨ (g.shape.length : Int) ≤ dim) ∧
    (exceptOk (g.project dim) = false ↔
      dim < -(g.shape.length : Int) ∨ (g.shape.length : Int) ≤ dim) ∧
    exceptOk (g.marginal (g.shape.length : Int)) = false ∧
    exceptOk (g.marginal (-1)) = true := by
  have main : ∀ e : Int,
      (exceptOk (g.marginal e) = false ↔
        e < -(g.shape.length : Int) ∨ (g.shape.length : Int) ≤ e) ∧
      (exceptOk (g.project e) = false ↔
        e < -(g.shape.length : Int) ∨ (g.shape.length : Int) ≤ e) := by
    intro e
    by_cases hout : e < -(g.shape.length : Int) ∨ (g.shape.length : Int) ≤ e
    · have n1 : normAxis g.shape.length e = none := (normAxis_none_iff _ _).mpr hout
      constructor
      · simp only [Distribution.marginal, n1]
        simp [exceptOk, hout]
      · simp only [Distribution.project, n1]
        simp [exceptOk, hout]
    · obtain ⟨k, hk, hkn⟩ := normAxis_some_lt g.shape.length e hout
      have e2 : normAxis g.xvecs.length e = some k := by rw [hv]; exact hk
      have e3 : normAxis g.xlabels.length e = some k := by rw [hl]; exact hk
      have hknz : g.shape.getD k 0 ≠ 0 := by
        have : g.shape.getD k 0 ∈ g.shape := by
          rw [List.getD_eq_getElem?_getD, List.getElem?_eq_getElem hkn]
          exact List.getElem_mem hkn
        exact hz _ this
      constructor
      · simp only [Distribution.marginal, hk, e2, e3]
        simp [exceptOk, hout]
      · simp only [Distribution.project, hk, e2, e3, if_neg hknz]
        simp [exceptOk, hout]
  refine ⟨(main dim).1, (main dim).2, ?_, ?_⟩
  · rw [(main _).1]; right; exact le_refl _
  · have : ¬((-1 : Int) < -(g.shape.length : Int) ∨ (g.shape.length : Int) ≤ -1) := by
      omega
    rcases Bool.eq_false_or_eq_true (exceptOk (g.marginal (-1))) with hb | hb
    · exact hb
    · exact absurd ((main (-1)).1.mp hb) this

/-- Witness for the amended C4 theorem at the concrete rank-1 grid
`c4grid` and `dim = 1`. -/
theorem marginal_project_error_iff_axis_range_witness :
    (1 ≤ c4grid.shape.length ∧ ∀ k ∈ c4grid.shape, k ≠ 0) ∧
    ((exceptOk (c4grid.marginal 1) = false ↔
      (1 : Int) < -(c4grid.shape.length : Int) ∨ (c4grid.shape.length : Int) ≤ 1) ∧
    (exceptOk (c4grid.project 1) = false ↔
      (1 : Int) < -(c4grid.shape.length : Int) ∨ (c4grid.shape.length : Int) ≤ 1) ∧
    exceptOk (c4grid.marginal (c4grid.shape.length : Int)) = false ∧
    exceptOk (c4grid.marginal (-1)) = true) :=
  ⟨⟨by decide, by decide⟩,
    marginal_project_error_iff_axis_range c4grid 1 rfl rfl (by decide) (by decide)⟩

theorem ndAdd_const (s : List ℕ) (a b : ℝ) :
    ndAdd s (constArr s a) (constArr s b) = constArr s (a + b) := by
  induction s with
  | nil => rfl
  | cons n t ih => funext k; exact ih

theorem ndSMul_const (c : ℝ) (s : List ℕ) (a : ℝ) :
    ndSMul c s (constArr s a) = constArr s (c * a) := by
  induction s with
  | nil => rfl
  | cons n t ih => funext k; exact ih

theorem ndSum_const (n : ℕ) (s : List ℕ) (c : ℝ) :
    ndSum n s (fun _ => constArr s c) = constArr s (n * c) := by
  induction n with
  | zero => simp [ndSum]
  | succ m ih =>
    show ndAdd s (constArr s c) (ndSum m s (fun _ => constArr s c)) = _
    rw [ih, ndAdd_const]
    congr 1
    push_cast
    ring

theorem meanAxis_const (d : ℕ) (s : List ℕ) (c : ℝ)
    (hd : d < s.length) (hn : s.getD d 0 ≠ 0) :
    meanAxis d s (constArr s c) = constArr (s.eraseIdx d) c := by
  induction d generalizing s with
  | zero =>
    cases s with
    | nil => simp at hd
    | cons n t =>
      have hn0 : (n : ℝ) ≠ 0 := Nat.cast_ne_zero.mpr (by simpa using hn)
      show ndSMul (1 / (n : ℝ)) t (ndSum n t (fun _ => constArr t c)) = constArr t c
      rw [ndSum_const, ndSMul_const]
      congr 1
      field_simp
  | succ d ih =>
    cases s with
    | nil => simp at hd
    | cons n t =>
      funext k
      show meanAxis d t (constArr t c) = _
      exact ih t (by simpa using hd) (by simpa using hn)

theorem allEq_const (s : List ℕ) (c : ℝ) : allEq s (constArr s c) c := by
  induction s with
  | nil => rfl
  | cons n t ih => intro k; exact ih

/-- C9: for every well-formed grid whose data is filled with the single
constant `c` and every valid axis index `d` (the reduced axis being
nonempty, the implicit assumption of a real grid: NumPy `mean` over a
zero-size axis produces NaN), `marginal(d)` succeeds and every entry of
its data equals `c`. -/
theorem marginal_uniform_const
    (s : List ℕ) (xv : List (List ℝ)) (xl : List String) (c : ℝ) (d : ℕ)
    (hv : xv.length = s.length) (hl : xl.length = s.length)
    (hd : d < s.length) (hn : s.getD d 0 ≠ 0) :
    ∃ g2, (Distribution.mk s (constArr s c) xv xl).marginal (d : Int) = Except.ok g2 ∧
      allEq g2.shape g2.data c := by
  have e1 : normAxis s.length (d : Int) = some d := normAxis_of_lt _ _ hd
  have e2 : normAxis xv.length (d : Int) = some d := by rw [hv]; exact e1
  have e3 : normAxis xl.length (d : Int) = some d := by rw [hl]; exact e1
  refine ⟨⟨s.eraseIdx d, meanAxis d s (constArr s c), [xv.getD d []], [xl.getD d ""]⟩, ?_, ?_⟩
  · simp only [Distribution.marginal, e1, e2, e3]
  · show allEq (s.eraseIdx d) (meanAxis d s (constArr s c)) c
    rw [meanAxis_const d s c hd hn]
    exact allEq_const _ _

/-- Witness for C9 at the concrete shape `[2]`, constant `3`, axis 0. -/
theorem marginal_uniform_const_witness :
    ((0 : ℕ) < ([2] : List ℕ).length ∧ ([2] : List ℕ).getD 0 0 ≠ 0) ∧
    ∃ g2, (Distribution.mk [2] (constArr [2] 3) [[0, 1]] ["x"]).marginal (0 : Int) =
        Except.ok g2 ∧ allEq g2.shape g2.data 3 :=
  ⟨⟨by decide, by decide⟩,
    marginal_uniform_const [2] [[0, 1]] ["x"] 3 0 rfl rfl (by decide) (by decide)⟩

theorem foldl_add_eq_sum (g : ℕ → ℂ) (N : ℕ) (a : ℂ) :
    (List.range N).foldl (fun acc n => acc + g n) a = a + ∑ n ∈ Finset.range N, g n := by
  induction N generalizing a with
  | zero => simp
  | succ m ih =>
    rw [List.range_succ, List.foldl_append]
    simp only [List.foldl_cons, List.foldl_nil, ih, Finset.sum_range_succ]
    ring

theorem state_number_index_pair (N n1 n2 : ℕ) :
    state_number_index [N, N] [n1, n2] = n1 * N + n2 := by
  simp [state_number_index]

theorem pEntry_eq_sum (t1 t2 : ℝ) (N : ℕ) (amp : ℕ → ℂ) (x1 x2 : ℝ) :
    pEntry t1 t2 N amp x1 x2 =
      ∑ n1 ∈ Finset.range N, ∑ n2 ∈ Finset.range N,
        kn t1 n1 x1 * kn t2 n2 x2 * amp (state_number_index [N, N] [n1, n2]) := by
  unfold pEntry
  have hfun : (fun (acc : ℂ) (n1 : ℕ) => (List.range N).foldl
        (fun acc2 n2 => acc2 + kn t1 n1 x1 * kn t2 n2 x2 *
          amp (state_number_index [N, N] [n1, n2])) acc) =
      fun (acc : ℂ) (n1 : ℕ) => acc + ∑ n2 ∈ Finset.range N,
        kn t1 n1 x1 * kn t2 n2 x2 * amp (state_number_index [N, N] [n1, n2]) := by
    funext a n1
    exact foldl_add_eq_sum _ N a
  rw [hfun, foldl_add_eq_sum]
  simp

theorem pEntrySwapped_eq_sum (t1 t2 : ℝ) (N : ℕ) (amp : ℕ → ℂ) (x1 x2 : ℝ) :
    pEntrySwapped t1 t2 N amp x1 x2 =
      ∑ n2 ∈ Finset.range N, ∑ n1 ∈ Finset.range N,
        kn t1 n1 x1 * kn t2 n2 x2 * amp (state_number_index [N, N] [n1, n2]) := by
  unfold pEntrySwapped
  have hfun : (fun (acc : ℂ) (n2 : ℕ) => (List.range N).foldl
        (fun acc2 n1 => acc2 + kn t1 n1 x1 * kn t2 n2 x2 *
          amp (state_number_index [N, N] [n1, n2])) acc) =
      fun (acc : ℂ) (n2 : ℕ) => acc + ∑ n1 ∈ Finset.range N,
        kn t1 n1 x1 * kn t2 n2 x2 * amp (state_number_index [N, N] [n1, n2]) := by
    funext a n2
    exact foldl_add_eq_sum _ N a
  rw [hfun, foldl_add_eq_sum]
  simp

theorem pEntrySwapped_eq (t1 t2 : ℝ) (N : ℕ) (amp : ℕ → ℂ) (x1 x2 : ℝ) :
    pEntrySwapped t1 t2 N amp x1 x2 = pEntry t1 t2 N amp x1 x2 := by
  rw [pEntry_eq_sum, pEntrySwapped_eq_sum, Finset.sum_comm]

theorem getD_mem_of_lt {α : Type} (l : List α) (i : ℕ) (d : α) (h : i < l.length) :
    l.getD i d ∈ l := by
  rw [List.getD_eq_getElem?_getD, List.getElem?_eq_getElem h]
  exact List.getElem_mem h

theorem getD_getD_nonneg (m : List (List ℝ)) (i j : ℕ)
    (h : ∀ row ∈ m, ∀ x ∈ row, 0 ≤ x) : 0 ≤ (m.getD i []).getD j 0 := by
  by_cases hi : i < m.length
  · by_cases hj : j < (m.getD i []).length
    · exact h _ (getD_mem_of_lt m i [] hi) _ (getD_mem_of_lt _ j 0 hj)
    · rw [List.getD_eq_getElem?_getD (m.getD i []), List.getElem?_eq_none (by omega)]
      simp
  · rw [List.getD_eq_getElem?_getD m, List.getElem?_eq_none (by omega)]
    simp

/-- C1: for every two-mode state with per-mode truncation `N` read from
`dims[0][0]` and flat amplitude vector `amp`, `update` sets `data` to
the elementwise modulus squared `|p|^2` of the complex accumulator
`p = sum over (n1, n2) in [0,N) x [0,N) of kn1(X1) * kn2(X2) * amp[n1*N + n2]`
(with the kernel `kn` as in the source formula), evaluated pointwise
over the mesh; consequently every entry of the resulting data is a real
number and is non-negative. -/
theorem twoMode_update_data_formula
    (b : TwoModeQuadratureCorrelation) (rho : Qobj) :
    ((b.updateCore rho).data = some (List.ofFn (fun i : Fin (b.xvecs.getD 0 []).length =>
        List.ofFn (fun j : Fin (b.xvecs.getD 1 []).length =>
          Complex.abs (∑ n1 ∈ Finset.range ((rho.dims.getD 0 []).getD 0 0),
            ∑ n2 ∈ Finset.range ((rho.dims.getD 0 []).getD 0 0),
              kn b.theta1 n1 ((b.xvecs.getD 0 []).getD j 0) *
                kn b.theta2 n2 ((b.xvecs.getD 1 []).getD i 0) *
                rho.amp (n1 * ((rho.dims.getD 0 []).getD 0 0) + n2)) ^ 2)))) ∧
    ∀ i j : ℕ, 0 ≤ (((b.updateCore rho).data.getD []).getD i []).getD j 0 := by
  constructor
  · simp only [TwoModeQuadratureCorrelation.updateCore, pEntry_eq_sum,
      state_number_index_pair]
  · intro i j
    simp only [TwoModeQuadratureCorrelation.updateCore, Option.getD_some]
    apply getD_getD_nonneg
    intro row hrow x hx
    rw [List.mem_ofFn] at hrow
    obtain ⟨k, hk⟩ := hrow
    rw [← hk, List.mem_ofFn] at hx
    obtain ⟨l, hl⟩ := hx
    rw [← hl]
    positivity

/-- C3 counterexample: on a freshly constructed two-mode builder,
`update(None)` hits the unguarded `rho.dims` attribute access and raises
an `AttributeError`; it does not return normally with everything
unchanged, so it is not a no-op. -/
theorem update_none_not_noop_cex :
    TwoModeQuadratureCorrelation.update
        (TwoModeQuadratureCorrelation.init none 0 0 (-5) 5 (-5) 5 250) none =
      Except.error "AttributeError: NoneType object has no attribute dims" ∧
    TwoModeQuadratureCorrelation.update
        (TwoModeQuadratureCorrelation.init none 0 0 (-5) 5 (-5) 5 250) none ≠
      Except.ok (TwoModeQuadratureCorrelation.init none 0 0 (-5) 5 (-5) 5 250) := by
  exact ⟨rfl, by simp [TwoModeQuadratureCorrelation.update]⟩

/-- C3 (amended): the falsy-state no-op lives in the constructors, not
in `update`: constructing any of the three builders with an absent state
skips `update` entirely and leaves `data` unset, whereas calling
`TwoModeQuadratureCorrelation.update` directly with an absent state is
unguarded and raises an `AttributeError` at the `rho.dims` access
(`data` is left unchanged only because the exception fires before any
assignment). -/
theorem init_none_skips_update
    (t1 t2 e00 e01 e10 e11 : ℝ) (steps : ℕ) :
    (WignerDistribution.init none e00 e01 e10 e11 steps).data = none ∧
    (QDistribution.init none e00 e01 e10 e11 steps).data = none ∧
    (TwoModeQuadratureCorrelation.init none t1 t2 e00 e01 e10 e11 steps).data = none ∧
    ∀ b : TwoModeQuadratureCorrelation,
      b.update none =
        Except.error "AttributeError: NoneType object has no attribute dims" :=
  ⟨rfl, rfl, rfl, fun _ => rfl⟩

/-- C8: interchanging the `(n1, n2)` double summation of
`TwoModeQuadratureCorrelation.update` (iterating `n2` in the outer loop
and `n1` in the inner loop) produces exactly the same `data` under the
exact arithmetic of the embedding. -/
theorem twoMode_sum_order_invariant
    (b : TwoModeQuadratureCorrelation) (rho : Qobj) :
    b.updateCoreSwapped rho = b.updateCore rho := by
  unfold TwoModeQuadratureCorrelation.updateCoreSwapped
    TwoModeQuadratureCorrelation.updateCore
  simp only [pEntrySwapped_eq]

/-- C10: for every builder and every actual state, `update` replaces
only the `data` field: the axis vectors, axis labels and (for the
two-mode builder) the configured angles `theta1`, `theta2` are exactly
unchanged, and repeated updates with different states against the same
configuration keep the same axis vectors. -/
theorem update_preserves_config :
    (∀ (b : WignerDistribution) (rho : Qobj),
      (b.update rho).xvecs = b.xvecs ∧ (b.update rho).xlabels = b.xlabels) ∧
    (∀ (b : QDistribution) (rho : Qobj),
      (b.update rho).xvecs = b.xvecs ∧ (b.update rho).xlabels = b.xlabels) ∧
    (∀ (b : TwoModeQuadratureCorrelation) (rho : Qobj),
      (b.updateCore rho).xvecs = b.xvecs ∧ (b.updateCore rho).xlabels = b.xlabels ∧
      (b.updateCore rho).theta1 = b.theta1 ∧ (b.updateCore rho).theta2 = b.theta2 ∧
      b.update (some rho) = Except.ok (b.updateCore rho)) ∧
    (∀ (b : TwoModeQuadratureCorrelation) (r1 r2 : Qobj),
      ((b.updateCore r1).updateCore r2).xvecs = b.xvecs ∧
      ((b.updateCore r1).updateCore r2).xlabels = b.xlabels) :=
  ⟨fun _ _ => ⟨rfl, rfl⟩, fun _ _ => ⟨rfl, rfl⟩,
    fun _ _ => ⟨rfl, rfl, rfl, rfl, rfl⟩, fun _ _ _ => ⟨rfl, rfl⟩⟩

theorem linspace_length (a b : ℝ) (n : ℕ) : (linspace a b n).length = n := by
  simp [linspace]

theorem wigner_init_xvecs (rho0 : Option Qobj)
    (e00 e01 e10 e11 : ℝ) (steps : ℕ) :
    (WignerDistribution.init rho0 e00 e01 e10 e11 steps).xvecs
      = [linspace e00 e01 steps, linspace e10 e11 steps] := by
  cases rho0 <;> rfl

theorem wigner_init_xlabels_length (rho0 : Option Qobj)
    (e00 e01 e10 e11 : ℝ) (steps : ℕ) :
    (WignerDistribution.init rho0 e00 e01 e10 e11 steps).xlabels.length = 2 := by
  cases rho0 <;> rfl

theorem qdist_init_xvecs (rho0 : Option Qobj)
    (e00 e01 e10 e11 : ℝ) (steps : ℕ) :
    (QDistribution.init rho0 e00 e01 e10 e11 steps).xvecs
      = [linspace e00 e01 steps, linspace e10 e11 steps] := by
  cases rho0 <;> rfl

theorem qdist_init_xlabels_length (rho0 : Option Qobj)
    (e00 e01 e10 e11 : ℝ) (steps : ℕ) :
    (QDistribution.init rho0 e00 e01 e10 e11 steps).xlabels.length = 2 := by
  cases rho0 <;> rfl

theorem twoMode_init_xvecs (rho0 : Option Qobj)
    (t1 t2 e00 e01 e10 e11 : ℝ) (steps : ℕ) :
    (TwoModeQuadratureCorrelation.init rho0 t1 t2 e00 e01 e10 e11 steps).xvecs
      = [linspace e00 e01 steps, linspace e10 e11 steps] := by
  cases rho0 <;> rfl

theorem twoMode_init_xlabels_length (rho0 : Option Qobj)
    (t1 t2 e00 e01 e10 e11 : ℝ) (steps : ℕ) :
    (TwoModeQuadratureCorrelation.init rho0 t1 t2 e00 e01 e10 e11 steps).xlabels.length
      = 2 := by
  cases rho0 <;> rfl

theorem grid_ofFn_shape {n m : ℕ} (f : Fin n → Fin m → ℝ) :
    (List.ofFn fun i => List.ofFn fun j => f i j).length = n ∧
    (List.ofFn fun i => List.ofFn fun j => f i j).map List.length
      = List.replicate n m := by
  refine ⟨by simp, ?_⟩
  rw [List.map_ofFn]
  have : (List.length ∘ fun i => List.ofFn fun j => f i j) = fun _ => m := by
    funext i
    simp
  rw [this, List.ofFn_const]

/-- C5: for each of the three builders, construction followed by a
successful `update` yields a grid satisfying the shape invariant: the
data is a `steps x steps` nested array (rank 2), the axis-vector and
axis-label sequences both have length 2 (`= data.ndim`), and
`data.shape[i] = len(axisVectors[i]) = steps` for both axes.  (For
`WignerDistribution`/`QDistribution` the data shape comes from the
spec-modelled external `wigner`/`qfunc` transforms.) -/
theorem builder_shape_invariant
    (rho0 : Option Qobj) (rho : Qobj) (t1 t2 e00 e01 e10 e11 : ℝ) (steps : ℕ) :
    (∃ m, ((WignerDistribution.init rho0 e00 e01 e10 e11 steps).update rho).data = some m ∧
      m.length = steps ∧ m.map List.length = List.replicate steps steps) ∧
    ((WignerDistribution.init rho0 e00 e01 e10 e11 steps).update rho).xvecs.map List.length
      = [steps, steps] ∧
    ((WignerDistribution.init rho0 e00 e01 e10 e11 steps).update rho).xlabels.length = 2 ∧
    (∃ m, ((QDistribution.init rho0 e00 e01 e10 e11 steps).update rho).data = some m ∧
      m.length = steps ∧ m.map List.length = List.replicate steps steps) ∧
    ((QDistribution.init rho0 e00 e01 e10 e11 steps).update rho).xvecs.map List.length
      = [steps, steps] ∧
    ((QDistribution.init rho0 e00 e01 e10 e11 steps).update rho).xlabels.length = 2 ∧
    (∃ m, ((TwoModeQuadratureCorrelation.init rho0 t1 t2 e00 e01 e10 e11 steps).updateCore
        rho).data = some m ∧
      m.length = steps ∧ m.map List.length = List.replicate steps steps) ∧
    ((TwoModeQuadratureCorrelation.init rho0 t1 t2 e00 e01 e10 e11 steps).updateCore
        rho).xvecs.map List.length = [steps, steps] ∧
    ((TwoModeQuadratureCorrelation.init rho0 t1 t2 e00 e01 e10 e11 steps).updateCore
        rho).xlabels.length = 2 := by
  have hWv := wigner_init_xvecs rho0 e00 e01 e10 e11 steps
  have hQv := qdist_init_xvecs rho0 e00 e01 e10 e11 steps
  have hTv := twoMode_init_xvecs rho0 t1 t2 e00 e01 e10 e11 steps
  refine ⟨⟨_, rfl, ?_, ?_⟩, ?_, ?_, ⟨_, rfl, ?_, ?_⟩, ?_, ?_, ⟨_, rfl, ?_, ?_⟩, ?_, ?_⟩
  · show (wigner rho _ _).length = steps
    rw [wigner, List.length_ofFn, hWv]
    simp [linspace_length]
  · show (wigner rho _ _).map List.length = _
    rw [show wigner rho ((WignerDistribution.init rho0 e00 e01 e10 e11 steps).xvecs.getD 0 [])
        ((WignerDistribution.init rho0 e00 e01 e10 e11 steps).xvecs.getD 1 [])
      = List.ofFn fun _ :
          Fin ((WignerDistribution.init rho0 e00 e01 e10 e11 steps).xvecs.getD 0 []).length =>
          List.ofFn fun _ :
            Fin ((WignerDistribution.init rho0 e00 e01 e10 e11 steps).xvecs.getD 1 []).length =>
            (0 : ℝ) from rfl]
    rw [(grid_ofFn_shape _).2, hWv]
    simp [linspace_length]
  · show (WignerDistribution.init rho0 e00 e01 e10 e11 steps).xvecs.map List.length = _
    rw [hWv]
    simp [linspace_length]
  · show (WignerDistribution.init rho0 e00 e01 e10 e11 steps).xlabels.length = 2
    exact wigner_init_xlabels_length rho0 e00 e01 e10 e11 steps
  · show (qfunc rho _ _).length = steps
    rw [qfunc, List.length_ofFn, hQv]
    simp [linspace_length]
  · show (qfunc rho _ _).map List.length = _
    rw [show qfunc rho ((QDistribution.init rho0 e00 e01 e10 e11 steps).xvecs.getD 0 [])
        ((QDistribution.init rho0 e00 e01 e10 e11 steps).xvecs.getD 1 [])
      = List.ofFn fun _ :
          Fin ((QDistribution.init rho0 e00 e01 e10 e11 steps).xvecs.getD 0 []).length =>
          List.ofFn fun _ :
            Fin ((QDistribution.init rho0 e00 e01 e10 e11 steps).xvecs.getD 1 []).length =>
            (1 : ℝ) from rfl]
    rw [(grid_ofFn_shape _).2, hQv]
    simp [linspace_length]
  · show (QDistribution.init rho0 e00 e01 e10 e11 steps).xvecs.map List.length = _
    rw [hQv]
    simp [linspace_length]
  · show (QDistribution.init rho0 e00 e01 e10 e11 steps).xlabels.length = 2
    exact qdist_init_xlabels_length rho0 e00 e01 e10 e11 steps
  · rw [List.length_ofFn, hTv]
    simp [linspace_length]
  · rw [(grid_ofFn_shape _).2, hTv]
    simp [linspace_length]
  · show (TwoModeQuadratureCorrelation.init rho0 t1 t2 e00 e01 e10 e11 steps).xvecs.map
        List.length = _
    rw [hTv]
    simp [linspace_length]
  · show (TwoModeQuadratureCorrelation.init rho0 t1 t2 e00 e01 e10 e11 steps).xlabels.length = 2
    exact twoMode_init_xlabels_length rho0 t1 t2 e00 e01 e10 e11 steps

theorem pEntry_vacuum (t1 t2 x1 x2 : ℝ) :
    pEntry t1 t2 1 vacuumState.amp x1 x2 = kn t1 0 x1 * kn t2 0 x2 := by
  have hamp : vacuumState.amp (state_number_index [1, 1] [0, 0]) = 1 := rfl
  have hr : List.range 1 = [0] := rfl
  simp [pEntry, hr, hamp]

theorem abs_kn_zero (t x : ℝ) :
    Complex.abs (kn t 0 x) = Real.exp (-x ^ 2 / 2) / Real.sqrt (Real.sqrt Real.pi) := by
  have e0 : Complex.exp (-Complex.I * (t : ℂ) * ((0 : ℕ) : ℂ)) = 1 := by
    norm_num
  unfold kn
  rw [e0]
  rw [show Real.sqrt (Real.sqrt Real.pi * 2 ^ (0 : ℕ) * (Nat.factorial 0 : ℝ))
      = Real.sqrt (Real.sqrt Real.pi) from by norm_num [Nat.factorial]]
  rw [show hermite 0 x = 1 from rfl, Complex.ofReal_one, mul_one]
  rw [map_mul, map_div₀, map_one, Complex.abs_ofReal, Complex.abs_ofReal]
  rw [abs_of_nonneg (Real.sqrt_nonneg _), abs_of_nonneg (Real.exp_pos _).le]
  ring

theorem vacuum_entry_value (t1 t2 x1 x2 : ℝ) :
    Complex.abs (pEntry t1 t2 1 vacuumState.amp x1 x2) ^ 2 =
      (1 / Real.pi) * Real.exp (-(x1 ^ 2 + x2 ^ 2)) := by
  rw [pEntry_vacuum, map_mul, abs_kn_zero, abs_kn_zero]
  have hs : Real.sqrt (Real.sqrt Real.pi) ^ 2 = Real.sqrt Real.pi :=
    Real.sq_sqrt (Real.sqrt_nonneg _)
  have hp : Real.sqrt Real.pi ^ 2 = Real.pi := Real.sq_sqrt Real.pi_pos.le
  have he1 : Real.exp (-x1 ^ 2 / 2) ^ 2 = Real.exp (-x1 ^ 2) := by
    rw [pow_two, ← Real.exp_add]
    congr 1
    ring
  have he2 : Real.exp (-x2 ^ 2 / 2) ^ 2 = Real.exp (-x2 ^ 2) := by
    rw [pow_two, ← Real.exp_add]
    congr 1
    ring
  rw [div_mul_div_comm, div_pow, mul_pow, he1, he2, ← Real.exp_add]
  have hcc : (Real.sqrt (Real.sqrt Real.pi) * Real.sqrt (Real.sqrt Real.pi)) ^ 2
      = Real.pi := by
    rw [mul_pow, hs, ← pow_two, hp]
  rw [hcc]
  have hxx : -x1 ^ 2 + -x2 ^ 2 = -(x1 ^ 2 + x2 ^ 2) := by ring
  rw [hxx]
  ring

theorem getD_ofFn {α : Type} {n : ℕ} (f : Fin n → α) (i : ℕ) (d : α) :
    (List.ofFn f).getD i d = if h : i < n then f ⟨i, h⟩ else d := by
  rw [List.getD_eq_getElem?_getD, List.getElem?_ofFn]
  by_cases h : i < n
  · rw [dif_pos h]
    simp [List.ofFnNthVal, h]
  · rw [dif_neg h]
    simp [List.ofFnNthVal, h]

theorem c6built_data (t1 t2 : ℝ) (xv1 xv2 : List ℝ) :
    (c6built t1 t2 xv1 xv2).data = some (List.ofFn (fun i : Fin xv1.length =>
      List.ofFn (fun j : Fin xv2.length =>
        (1 / Real.pi) * Real.exp (-((xv1.getD j 0) ^ 2 + (xv2.getD i 0) ^ 2))))) := by
  have hN : ((vacuumState.dims.getD 0 []).getD 0 0) = 1 := rfl
  unfold c6built TwoModeQuadratureCorrelation.updateCore
  simp only [hN, vacuum_entry_value, List.getD_cons_zero, List.getD_cons_succ]

theorem c6_entry (t1 t2 : ℝ) (xv1 xv2 : List ℝ) (i j : ℕ) :
    (c6built t1 t2 xv1 xv2).dataEntry i j =
      if i < xv1.length ∧ j < xv2.length then
        (1 / Real.pi) * Real.exp (-((xv1.getD j 0) ^ 2 + (xv2.getD i 0) ^ 2))
      else 0 := by
  unfold TwoModeQuadratureCorrelation.dataEntry
  rw [c6built_data, Option.getD_some, getD_ofFn]
  by_cases hi : i < xv1.length
  · rw [dif_pos hi, getD_ofFn]
    by_cases hj : j < xv2.length
    · rw [dif_pos hj, if_pos ⟨hi, hj⟩]
    · rw [dif_neg hj, if_neg (by tauto)]
  · rw [dif_neg hi, if_neg (by tauto)]
    simp

/-- C6: for the two-mode vacuum (truncation `N = 1`, amplitude vector
`[1]`), `update` produces `data` exactly equal to
`(1/pi) * exp(-(X1^2 + X2^2))` — proportional to the ground-state
Gaussian with constant `1/pi` and independent of `theta1`/`theta2` (the
right-hand side mentions neither angle); on a grid containing the origin
the peak is at `(0, 0)`, and on a grid symmetric about the origin the
distribution is symmetric under `(X1, X2) -> (-X1, -X2)`. -/
theorem twoMode_vacuum_gaussian (t1 t2 : ℝ) (xv1 xv2 : List ℝ) :
    ((c6built t1 t2 xv1 xv2).data = some (List.ofFn (fun i : Fin xv1.length =>
      List.ofFn (fun j : Fin xv2.length =>
        (1 / Real.pi) * Real.exp (-((xv1.getD j 0) ^ 2 + (xv2.getD i 0) ^ 2)))))) ∧
    (∀ i0 j0 : ℕ, i0 < xv1.length → j0 < xv2.length →
      xv1.getD j0 0 = 0 → xv2.getD i0 0 = 0 →
      ∀ i j : ℕ, (c6built t1 t2 xv1 xv2).dataEntry i j ≤
        (c6built t1 t2 xv1 xv2).dataEntry i0 j0) ∧
    (∀ i j i2 j2 : ℕ, i < xv1.length → j < xv2.length →
      i2 < xv1.length → j2 < xv2.length →
      xv1.getD j2 0 = -(xv1.getD j 0) → xv2.getD i2 0 = -(xv2.getD i 0) →
      (c6built t1 t2 xv1 xv2).dataEntry i2 j2 = (c6built t1 t2 xv1 xv2).dataEntry i j) := by
  refine ⟨c6built_data t1 t2 xv1 xv2, ?_, ?_⟩
  · intro i0 j0 hi0 hj0 hx0 hy0 i j
    rw [c6_entry t1 t2 xv1 xv2 i j, c6_entry t1 t2 xv1 xv2 i0 j0,
      if_pos (show i0 < xv1.length ∧ j0 < xv2.length from ⟨hi0, hj0⟩), hx0, hy0]
    by_cases hij : i < xv1.length ∧ j < xv2.length
    · rw [if_pos hij]
      have h1 : Real.exp (-((xv1.getD j 0) ^ 2 + (xv2.getD i 0) ^ 2)) ≤
          Real.exp (-((0 : ℝ) ^ 2 + (0 : ℝ) ^ 2)) := by
        apply Real.exp_le_exp.mpr
        nlinarith [sq_nonneg (xv1.getD j 0), sq_nonneg (xv2.getD i 0)]
      have hpi : 0 ≤ 1 / Real.pi := by positivity
      exact mul_le_mul_of_nonneg_left h1 hpi
    · rw [if_neg hij]
      positivity
  · intro i j i2 j2 hi hj hi2 hj2 hx hy
    rw [c6_entry t1 t2 xv1 xv2 i2 j2, c6_entry t1 t2 xv1 xv2 i j,
      if_pos (show i2 < xv1.length ∧ j2 < xv2.length from ⟨hi2, hj2⟩),
      if_pos (show i < xv1.length ∧ j < xv2.length from ⟨hi, hj⟩),
      hx, hy, neg_sq, neg_sq]

/-- Witness for C6 on the symmetric grid `[-1, 0, 1] x [-1, 0, 1]` with
angles 1 and 2: the origin sits at index `(1, 1)`, the peak inequality
holds against every entry, and the `(0, 0)`/`(2, 2)` corner entries are
equal by the central symmetry. -/
theorem twoMode_vacuum_gaussian_witness :
    ((1 : ℕ) < ([-1, 0, 1] : List ℝ).length ∧
      ([-1, 0, 1] : List ℝ).getD 1 0 = 0 ∧
      ([-1, 0, 1] : List ℝ).getD 2 0 = -(([-1, 0, 1] : List ℝ).getD 0 0)) ∧
    (∀ i j : ℕ, (c6built 1 2 [-1, 0, 1] [-1, 0, 1]).dataEntry i j ≤
      (c6built 1 2 [-1, 0, 1] [-1, 0, 1]).dataEntry 1 1) ∧
    (c6built 1 2 [-1, 0, 1] [-1, 0, 1]).dataEntry 2 2 =
      (c6built 1 2 [-1, 0, 1] [-1, 0, 1]).dataEntry 0 0 := by
  have h := twoMode_vacuum_gaussian 1 2 [-1, 0, 1] [-1, 0, 1]
  refine ⟨⟨by norm_num, by simp, by simp⟩, ?_, ?_⟩
  · exact h.2.1 1 1 (by norm_num) (by norm_num) (by simp) (by simp)
  · exact h.2.2 0 0 2 2 (by norm_num) (by norm_num) (by norm_num) (by norm_num)
      (by simp) (by simp)
